import Mathlib

/-!
# Invoice extraction client (static/js/main.js)

A shallow embedding of the client-side orchestration code: the JSON records
returned by the upload endpoint, the results table, the CSV export, the file
list with its per-file status and the sequential upload loop.

JavaScript strings are Lean strings, arrays are lists, and the two module
variables `extractedData`, `currentFiles` together with the DOM regions the
code writes to are fields of an explicit `Session` state.

Scope of the model:
* a record is a parsed JSON object whose values are scalars or lists of
  scalars; numbers are the integers that a double holds exactly and that
  print as their decimal numeral (below 10^21 in absolute value);
* a property read `row[header]` goes through the prototype chain, as it does
  on any object literal or parsed JSON object;
* the upload endpoint is an oracle `fetch` giving the outcome of the upload
  number `i` of a pass; one pass runs without other events interleaved;
* each `.file-item` element is the pair of the texts of its first span and of
  its first `.status` element; the HTML parser that builds the element from
  the markup of lines 55-58 belongs to the browser and is a parameter of
  `updateFileList` and `handleFiles`, so that nothing is assumed on how a
  file name holding markup or character references is read.
-/

namespace InvoiceExtract

/-! ## Records returned by the endpoint -/

/-- A JSON scalar. Numbers are the integers that a double holds exactly and that print as their
decimal numeral (below 10^21 in absolute value). -/
inductive Scalar where
  | null
  | bool (b : Bool)
  | num (n : Int)
  | str (s : String)
  deriving DecidableEq, Repr

/-- A field value: a scalar or an ordered list of scalars. -/
inductive Value where
  | scalar (v : Scalar)
  | list (vs : List Scalar)
  deriving DecidableEq, Repr

/-- An extraction record: its own properties in `Object.keys` order (in a parsed object no
field name occurs twice; no result below depends on it). -/
abbrev Record := List (String × Value)

/-- The array `Object.keys(data)`. -/
def objectKeys (data : Record) : List String :=
  data.map Prod.fst

/-- What a property read `row[header]` can yield on a parsed JSON object. -/
inductive JSVal where
  | undefined
  | json (v : Value)
  | native (text : String)
  deriving DecidableEq, Repr

/-- Text of a built-in function when converted to a string (the one-line form; engines differ
in white space only). -/
def nativeFunctionText (name : String) : String :=
  "function " ++ name ++ "() \x7b [native code] \x7d"

/-- The members every parsed JSON object inherits from `Object.prototype`, each with the text
its value converts to: `__proto__` is the prototype object itself, the others are built-in
functions. -/
def objectPrototype (key : String) : Option String :=
  if key = "__proto__" then some "[object Object]"
  else if key = "constructor" then some (nativeFunctionText "Object")
  else if key ∈ ["toString", "toLocaleString", "valueOf", "hasOwnProperty",
      "isPrototypeOf", "propertyIsEnumerable", "__defineGetter__", "__defineSetter__",
      "__lookupGetter__", "__lookupSetter__"] then some (nativeFunctionText key)
  else none

/-- The own property of `row` named `key`, when there is one. -/
def ownProperty (row : Record) (key : String) : Option Value :=
  match row with
  | [] => none
  | (k, v) :: rest => if k = key then some v else ownProperty rest key

/-- The property read `row[key]`: the own property, else the inherited member, else `undefined`. -/
def getProp (row : Record) (key : String) : JSVal :=
  match ownProperty row key with
  | some v => JSVal.json v
  | none =>
    match objectPrototype key with
    | some text => JSVal.native text
    | none => JSVal.undefined

/-! ## String conversions -/

/-- The double quote character. -/
def dquote : Char := Char.ofNat 34

/-- The backslash character. -/
def backslash : Char := Char.ofNat 92

/-- Decimal text of a number: its `String(n)` and its `JSON.stringify(n)` for the integers
below 10^21 in absolute value that a double holds exactly. -/
def numberToString (n : Int) : String :=
  match n with
  | Int.ofNat k => Nat.repr k
  | Int.negSucc k => "-" ++ Nat.repr (k + 1)

/-- The conversion `String(v)` of a scalar. -/
def scalarToString : Scalar → String
  | Scalar.null => "null"
  | Scalar.bool true => "true"
  | Scalar.bool false => "false"
  | Scalar.num n => numberToString n
  | Scalar.str s => s

/-- A lower-case hexadecimal digit. -/
def hexDigit (n : Nat) : Char :=
  if n < 10 then Char.ofNat (48 + n) else Char.ofNat (87 + n)

/-- The escape `JSON.stringify` writes for one character of a string. -/
def jsonEscapeChar (c : Char) : List Char :=
  if c = dquote then [backslash, dquote]
  else if c = backslash then [backslash, backslash]
  else if c.toNat = 8 then [backslash, 'b']
  else if c.toNat = 9 then [backslash, 't']
  else if c.toNat = 10 then [backslash, 'n']
  else if c.toNat = 12 then [backslash, 'f']
  else if c.toNat = 13 then [backslash, 'r']
  else if c.toNat < 32 then
    [backslash, 'u', '0', '0', hexDigit (c.toNat / 16), hexDigit (c.toNat % 16)]
  else [c]

/-- The text `JSON.stringify(s)` of a string. -/
def jsonQuote (s : String) : String :=
  String.mk ([dquote] ++ (s.toList.map jsonEscapeChar).flatten ++ [dquote])

/-- The text `JSON.stringify(v)` of a scalar. -/
def jsonScalar : Scalar → String
  | Scalar.str s => jsonQuote s
  | v => scalarToString v

/-- The text `JSON.stringify(vs)` of an array of scalars. -/
def jsonStringify (vs : List Scalar) : String :=
  "[" ++ String.intercalate "," (vs.map jsonScalar) ++ "]"

/-- Whether a value is falsy, so that `value || x` yields `x`. -/
def JSVal.falsy : JSVal → Bool
  | JSVal.undefined => true
  | JSVal.json (Value.scalar Scalar.null) => true
  | JSVal.json (Value.scalar (Scalar.bool b)) => !b
  | JSVal.json (Value.scalar (Scalar.num n)) => n == 0
  | JSVal.json (Value.scalar (Scalar.str s)) => s == ""
  | JSVal.json (Value.list _) => false
  | JSVal.native _ => false

/-- The expression `value || ''`. -/
def orEmpty (value : JSVal) : JSVal :=
  if value.falsy then JSVal.json (Value.scalar (Scalar.str "")) else value

/-- The expression `Array.isArray(value) ? JSON.stringify(value) : value`, converted to text
(by the template literal in the table, by `toString()` in the CSV). -/
def stringValue : JSVal → String
  | JSVal.json (Value.list vs) => jsonStringify vs
  | JSVal.json (Value.scalar v) => scalarToString v
  | JSVal.native text => text
  | JSVal.undefined => "undefined"

/-! ## updateResultsTable -/

/-- The call `headers.add(key)` on a `Set`, kept as its insertion-ordered elements. -/
def setAdd (headers : List String) (key : String) : List String :=
  if key ∈ headers then headers else headers ++ [key]

/-- The set `headers` after both `forEach` loops of lines 144-147, as `Array.from(headers)`. -/
def tableHeaders (extractedData : List Record) : List String :=
  extractedData.foldl (fun headers data => (objectKeys data).foldl setAdd headers) []

/-- The text placed in the cell of `data` under `header` (lines 156-157). -/
def tableCell (data : Record) (header : String) : String :=
  stringValue (orEmpty (getProp data header))

/-- The cells of every data row, one list per record. -/
def tableRows (extractedData : List Record) : List (List String) :=
  extractedData.map fun data => (tableHeaders extractedData).map (tableCell data)

/-- The header row markup (line 150). -/
def headerRowHtml (headers : List String) : String :=
  "<tr>" ++ String.join (headers.map fun h => "<th>" ++ h ++ "</th>") ++ "</tr>"

/-- The markup of one data row (lines 154-159). -/
def dataRowHtml (cells : List String) : String :=
  "<tr>" ++ String.join (cells.map fun c => "<td>" ++ c ++ "</td>") ++ "</tr>"

/-- The markup `updateResultsTable` assigns to the table container. -/
def updateResultsTable (extractedData : List Record) : String :=
  if extractedData.length = 0 then "<p>No data available</p>"
  else
    "<table class=\"results-table\">" ++ headerRowHtml (tableHeaders extractedData)
      ++ String.join ((tableRows extractedData).map dataRowHtml) ++ "</table>"

/-! ## downloadCSV -/

/-- The replacement `s.replace(/"/g, '""')`. -/
def doubleQuotes (s : String) : String :=
  String.mk (s.toList.map fun c => if c = dquote then [dquote, dquote] else [c]).flatten

/-- One quoted cell of a data row (lines 178-180). -/
def csvCell (row : Record) (header : String) : String :=
  "\"" ++ doubleQuotes (stringValue (orEmpty (getProp row header))) ++ "\""

/-- The columns of the export: the keys of the first record (line 173). -/
def csvHeaders (extractedData : List Record) : List String :=
  match extractedData with
  | [] => []
  | first :: _ => objectKeys first

/-- One line of the export for `row` (lines 177-182). -/
def csvRow (headers : List String) (row : Record) : String :=
  String.intercalate "," (headers.map (csvCell row)) ++ "\n"

/-- The CSV text `downloadCSV` puts in the blob; `none` when it only raises the
"No data available to download" alert. -/
def downloadCSV (extractedData : List Record) : Option String :=
  if extractedData.length = 0 then none
  else
    let headers := csvHeaders extractedData
    some (extractedData.foldl (fun csv row => csv ++ csvRow headers row)
      (String.intercalate "," headers ++ "\n"))

/-! ## A reader of RFC 4180 text

The round trip of the export is stated against this reader: cells separated by commas, records
ended by a line break, a cell in double quotes holding any character, with a doubled quote
standing for one quote. -/

/-- Where the reader stands inside a record. -/
inductive CsvState where
  | cellStart
  | bare
  | quoted
  | afterQuote
  deriving DecidableEq, Repr

/-- The records read from `text`, given the state, the characters of the current cell and the
cells already read of the current record. -/
def readCsvFrom (text : List Char) (st : CsvState) (cell : List Char) (row : List String) :
    List (List String) :=
  match text with
  | [] =>
    match st with
    | CsvState.cellStart => if row = [] then [] else [row ++ [String.mk cell]]
    | _ => [row ++ [String.mk cell]]
  | c :: cs =>
    match st with
    | CsvState.quoted =>
      if c = dquote then readCsvFrom cs CsvState.afterQuote cell row
      else readCsvFrom cs CsvState.quoted (cell ++ [c]) row
    | CsvState.afterQuote =>
      if c = dquote then readCsvFrom cs CsvState.quoted (cell ++ [c]) row
      else if c = ',' then readCsvFrom cs CsvState.cellStart [] (row ++ [String.mk cell])
      else if c = '\n' then (row ++ [String.mk cell]) :: readCsvFrom cs CsvState.cellStart [] []
      else readCsvFrom cs CsvState.bare (cell ++ [c]) row
    | CsvState.cellStart =>
      if c = dquote then readCsvFrom cs CsvState.quoted [] row
      else if c = ',' then readCsvFrom cs CsvState.cellStart [] (row ++ [String.mk cell])
      else if c = '\n' then (row ++ [String.mk cell]) :: readCsvFrom cs CsvState.cellStart [] []
      else readCsvFrom cs CsvState.bare (cell ++ [c]) row
    | CsvState.bare =>
      if c = ',' then readCsvFrom cs CsvState.cellStart [] (row ++ [String.mk cell])
      else if c = '\n' then (row ++ [String.mk cell]) :: readCsvFrom cs CsvState.cellStart [] []
      else readCsvFrom cs CsvState.bare (cell ++ [c]) row

/-- The records of a CSV text. -/
def readCsv (text : String) : List (List String) :=
  readCsvFrom text.toList CsvState.cellStart [] []

/-- The text a field value is expected to come back as: `String(value)` for a scalar, the JSON
text for a list. -/
def valueText : Value → String
  | Value.scalar v => scalarToString v
  | Value.list vs => jsonStringify vs

/-! ## Session state -/

/-- A selected file: its display name and media type (the content is not inspected). -/
structure File where
  name : String
  type : String
  deriving DecidableEq, Repr

/-- What the preview container shows. -/
inductive Preview where
  | noDocument
  | image (file : File)
  | pdf (file : File)
  | unavailable
  deriving DecidableEq, Repr

/-- One `.file-item` element: the text of its first span (`querySelector('span')`) and the text
of its first `.status` element. -/
structure FileItem where
  name : String
  status : String
  deriving DecidableEq, Repr

/-- The module variables and the DOM regions the code writes to. -/
structure Session where
  extractedData : List Record
  currentFiles : List File
  fileList : List FileItem
  previewContainer : Preview
  tableContainer : String
  extractDisabled : Bool
  downloadDisabled : Bool
  loading : Bool
  alerts : List String
  deriving DecidableEq, Repr

/-- The markup assigned to `fileItem.innerHTML` for a file name (lines 55-58). -/
def itemMarkup (fileName : String) : String :=
  "\n            <span>" ++ fileName
    ++ "</span>\n            <span class=\"status\">Pending</span>\n        "

/-- The children of the file list after `updateFileList` (lines 48-62): one element per file, in
order, each built from the markup of the file by the HTML parser. The parser is the one of the
browser and is a parameter: `parseHtml markup` gives the texts of the first span and of the
first `.status` element of the element built from `markup`. -/
def updateFileList (parseHtml : String → FileItem) (currentFiles : List File) :
    List FileItem :=
  currentFiles.map fun file => parseHtml (itemMarkup file.name)

/-- An entry whose name span reads the own name of the file and whose status reads Pending: what
the parser builds for a name it reads as plain text. -/
def pendingEntry (file : File) : FileItem :=
  { name := file.name, status := "Pending" }

/-- The test `s.startsWith(p)`. -/
def startsWith (s p : String) : Bool :=
  p.toList.isPrefixOf s.toList

/-- The preview shown by `previewFile` (lines 64-87); `none` is the argument `undefined`. -/
def previewFile (file : Option File) : Preview :=
  match file with
  | none => Preview.noDocument
  | some f =>
    if startsWith f.type "image/" then Preview.image f
    else if f.type = "application/pdf" then Preview.pdf f
    else Preview.unavailable

/-- The handler `handleFiles` (lines 41-46), for the HTML parser `parseHtml`. -/
def handleFiles (parseHtml : String → FileItem) (files : List File) (s : Session) : Session :=
  { s with
    currentFiles := files
    fileList := updateFileList parseHtml files
    previewContainer := previewFile files.head?
    extractDisabled := false }

/-- The function `updateFileStatus` (lines 126-134): the first item whose name span equals
`fileName` gets the status text, and the scan stops there. -/
def updateFileStatus (fileItems : List FileItem) (fileName : String) (status : String) :
    List FileItem :=
  match fileItems with
  | [] => []
  | item :: rest =>
    if item.name = fileName then { item with status := status } :: rest
    else item :: updateFileStatus rest fileName status

/-! ## processFiles -/

/-- How one upload ends: an OK response with its parsed record, a non-OK response with the
text of its `error` field, or an exception from `fetch` or from `response.json()`. -/
inductive Outcome where
  | ok (result : Record)
  | notOk (error : String)
  | throws
  deriving DecidableEq, Repr

/-- The body of the loop for one file (lines 98-112); `none` when the upload throws. -/
def uploadStep (outcome : Outcome) (file : File) (s : Session) : Option Session :=
  match outcome with
  | Outcome.ok result =>
    some { s with
      extractedData := s.extractedData ++ [result]
      fileList := updateFileStatus s.fileList file.name "Processed" }
  | Outcome.notOk error =>
    some { s with fileList := updateFileStatus s.fileList file.name ("Error: " ++ error) }
  | Outcome.throws => none

/-- The `for ... of` loop (lines 97-113) over `files`, whose first element is upload number `i`
of the pass. Returns the state when the loop ends and whether it ran to completion. -/
def uploadLoop (fetch : Nat → File → Outcome) (i : Nat) (files : List File) (s : Session) :
    Session × Bool :=
  match files with
  | [] => (s, true)
  | file :: rest =>
    match uploadStep (fetch i file) file s with
    | none => (s, false)
    | some s1 => uploadLoop fetch (i + 1) rest s1

/-- The state in which the loop of `processFiles` starts (lines 93-94). -/
def passStart (s : Session) : Session :=
  { s with extractDisabled := true, loading := true }

/-- The handler `processFiles` (lines 89-124), for the upload outcomes given by `fetch`. -/
def processFiles (fetch : Nat → File → Outcome) (s : Session) : Session :=
  match uploadLoop fetch 0 s.currentFiles (passStart s) with
  | (s1, true) =>
    { s1 with
      tableContainer := updateResultsTable s1.extractedData
      downloadDisabled := false
      loading := false
      extractDisabled := false }
  | (s1, false) =>
    { s1 with
      alerts := s1.alerts ++ ["Error processing files. Please try again."]
      loading := false
      extractDisabled := false }

/-- The status text an upload leaves on its file: `Processed` after an OK response, `Error:`
with the message after a non-OK one; an upload that throws writes nothing, which leaves
`Pending` on an entry that showed it. -/
def settledStatus : Outcome → String
  | Outcome.ok _ => "Processed"
  | Outcome.notOk error => "Error: " ++ error
  | Outcome.throws => "Pending"

/-- The record an upload contributes, if any. -/
def Outcome.record? : Outcome → Option Record
  | Outcome.ok result => some result
  | _ => none

/-- The item a settled upload leaves in the file list. -/
def settledItem (fetch : Nat → File → Outcome) (p : Nat × File) : FileItem :=
  { name := p.2.name, status := settledStatus (fetch p.1 p.2) }

/-! ## Sample sessions and endpoints -/

/-- The page before any interaction: nothing selected, nothing extracted, both buttons off. -/
def initialSession : Session :=
  { extractedData := []
    currentFiles := []
    fileList := []
    previewContainer := Preview.noDocument
    tableContainer := "<p>No data available</p>"
    extractDisabled := true
    downloadDisabled := true
    loading := false
    alerts := [] }

/-- A run of characters with every character reference `&amp;` decoded. -/
def decodeAmp : List Char → List Char
  | [] => []
  | '&' :: 'a' :: 'm' :: 'p' :: ';' :: rest => '&' :: decodeAmp rest
  | c :: rest => c :: decodeAmp rest

/-- What the HTML parser builds from the markup of a file whose name holds no tag and no
character reference other than `&amp;`: the name span reads the name with each `&amp;` decoded,
the status span reads Pending. -/
def sampleParseHtml (markup : String) : FileItem :=
  { name := String.mk (decodeAmp ((markup.toList.drop 19).takeWhile fun c => c != '<'))
    status := "Pending" }

/-- The file `a.pdf`. -/
def fileA : File := { name := "a.pdf", type := "application/pdf" }

/-- The file `c.txt`. -/
def fileC : File := { name := "c.txt", type := "text/plain" }

/-- A file whose name holds the character reference `&amp;`. -/
def fileAmp : File := { name := "a&amp;b.pdf", type := "application/pdf" }

/-- The file `b.jpg`. -/
def fileB : File := { name := "b.jpg", type := "image/jpeg" }

/-- The record with the single field `invoice_no` of value the string 1. -/
def invoiceRecord : Record := [("invoice_no", Value.scalar (Scalar.str "1"))]

/-- An endpoint that accepts the first upload and fails at transport level on the later ones. -/
def fetchOkThenThrows : Nat → File → Outcome := fun i _ =>
  if i = 0 then Outcome.ok invoiceRecord else Outcome.throws

/-- An endpoint that answers every upload with `invoiceRecord`. -/
def fetchAllOk : Nat → File → Outcome := fun _ _ => Outcome.ok invoiceRecord

/-- An endpoint that rejects every upload with the message `unsupported`. -/
def fetchAllRejected : Nat → File → Outcome := fun _ _ => Outcome.notOk "unsupported"

/-- An endpoint that accepts the first upload and rejects the later ones. -/
def fetchOkThenRejected : Nat → File → Outcome := fun i _ =>
  if i = 0 then Outcome.ok invoiceRecord else Outcome.notOk "unsupported"

/-- An endpoint that accepts `a.pdf`, rejects `b.jpg` and fails at transport level on anything
else. -/
def fetchByName : Nat → File → Outcome := fun _ f =>
  if f.name = "a.pdf" then Outcome.ok invoiceRecord
  else if f.name = "b.jpg" then Outcome.notOk "unsupported"
  else Outcome.throws

/-- An endpoint whose transport fails from the third upload on, the first two being accepted. -/
def fetchFailsAtThird : Nat → File → Outcome := fun i _ =>
  if i < 2 then Outcome.ok invoiceRecord else Outcome.throws

/-! ## Lemmas on the file list -/

theorem updateFileStatus_map_name (items : List FileItem) (n st : String) :
    (updateFileStatus items n st).map FileItem.name = items.map FileItem.name := by
  induction items with
  | nil => simp [updateFileStatus]
  | cons item rest ih =>
    unfold updateFileStatus
    by_cases h : item.name = n
    · simp [h]
    · simp [h, ih]

theorem updateFileStatus_append_of_not_mem (A B : List FileItem) (n st : String)
    (h : n ∉ A.map FileItem.name) :
    updateFileStatus (A ++ B) n st = A ++ updateFileStatus B n st := by
  induction A with
  | nil => simp
  | cons a A ih =>
    simp only [List.map_cons, List.mem_cons, not_or] at h
    have hne : ¬ a.name = n := fun e => h.1 e.symm
    simp [updateFileStatus, hne, ih h.2]

theorem updateFileStatus_pending_cons (f : File) (B : List FileItem) (st : String) :
    updateFileStatus (pendingEntry f :: B) f.name st = { name := f.name, status := st } :: B := by
  simp [updateFileStatus, pendingEntry]

theorem uploadLoop_of_no_throw (fetch : Nat → File → Outcome) :
    ∀ (fs : List File) (i : Nat) (s : Session) (A B : List FileItem),
      s.fileList = A ++ fs.map pendingEntry ++ B →
      (∀ f ∈ fs, f.name ∉ A.map FileItem.name) →
      (fs.map File.name).Nodup →
      (∀ p ∈ fs.enumFrom i, fetch p.1 p.2 ≠ Outcome.throws) →
      uploadLoop fetch i fs s =
        ({ s with
            fileList := A ++ (fs.enumFrom i).map (settledItem fetch) ++ B
            extractedData :=
              s.extractedData ++ (fs.enumFrom i).filterMap fun p => (fetch p.1 p.2).record? },
          true) := by
  intro fs
  induction fs with
  | nil =>
    intro i s A B hs _ _ _
    cases s
    simp only [List.map_nil, List.append_nil] at hs
    simp [uploadLoop, hs]
  | cons f fs ih =>
    intro i s A B hs hA hnd hno
    have hf : f.name ∉ A.map FileItem.name := hA f (List.mem_cons_self _ _)
    have hnd2 : f.name ∉ fs.map File.name ∧ (fs.map File.name).Nodup := by
      simpa using hnd
    have hnext : ∀ p ∈ fs.enumFrom (i + 1), fetch p.1 p.2 ≠ Outcome.throws := by
      intro p hp
      exact hno p (by simp [List.enumFrom_cons, hp])
    have hhead : fetch i f ≠ Outcome.throws := hno (i, f) (by simp [List.enumFrom_cons])
    have hupd : ∀ st, updateFileStatus s.fileList f.name st
        = (A ++ [{ name := f.name, status := st }]) ++ fs.map pendingEntry ++ B := by
      intro st
      rw [hs, List.map_cons, List.append_assoc,
        updateFileStatus_append_of_not_mem _ _ _ _ hf, List.cons_append,
        updateFileStatus_pending_cons]
      simp
    have hA2 : ∀ st, ∀ g ∈ fs,
        g.name ∉ (A ++ [({ name := f.name, status := st } : FileItem)]).map FileItem.name := by
      intro st g hg
      simp only [List.map_append, List.map_cons, List.map_nil, List.mem_append,
        List.mem_singleton, not_or]
      refine ⟨hA g (List.mem_cons_of_mem _ hg), ?_⟩
      intro e
      exact hnd2.1 (by rw [← e]; exact List.mem_map_of_mem _ hg)
    unfold uploadLoop
    cases hout : fetch i f with
    | throws => exact absurd hout hhead
    | ok result =>
      simp only [uploadStep]
      rw [ih (i + 1) _ (A ++ [{ name := f.name, status := "Processed" }]) B
        (hupd "Processed") (hA2 "Processed") hnd2.2 hnext]
      simp [List.enumFrom_cons, settledItem, settledStatus, Outcome.record?, hout]
    | notOk error =>
      simp only [uploadStep]
      rw [ih (i + 1) _ (A ++ [{ name := f.name, status := "Error: " ++ error }]) B
        (hupd _) (hA2 _) hnd2.2 hnext]
      simp [List.enumFrom_cons, settledItem, settledStatus, Outcome.record?, hout]

/-! ## Lemmas on the upload loop -/

theorem uploadStep_frame (o : Outcome) (f : File) (s t : Session)
    (h : uploadStep o f s = some t) :
    t.currentFiles = s.currentFiles ∧ t.previewContainer = s.previewContainer ∧
      t.tableContainer = s.tableContainer ∧ t.extractDisabled = s.extractDisabled ∧
      t.downloadDisabled = s.downloadDisabled ∧ t.loading = s.loading ∧
      t.alerts = s.alerts := by
  cases o <;> simp [uploadStep] at h <;> subst h <;> simp

theorem uploadLoop_frame (fetch : Nat → File → Outcome) :
    ∀ (fs : List File) (i : Nat) (s : Session),
      (uploadLoop fetch i fs s).1.currentFiles = s.currentFiles ∧
      (uploadLoop fetch i fs s).1.previewContainer = s.previewContainer ∧
      (uploadLoop fetch i fs s).1.tableContainer = s.tableContainer ∧
      (uploadLoop fetch i fs s).1.extractDisabled = s.extractDisabled ∧
      (uploadLoop fetch i fs s).1.downloadDisabled = s.downloadDisabled ∧
      (uploadLoop fetch i fs s).1.loading = s.loading ∧
      (uploadLoop fetch i fs s).1.alerts = s.alerts := by
  intro fs
  induction fs with
  | nil => intro i s; simp [uploadLoop]
  | cons f fs ih =>
    intro i s
    unfold uploadLoop
    cases hstep : uploadStep (fetch i f) f s with
    | none => simp
    | some t =>
      have h1 := uploadStep_frame _ _ _ _ hstep
      have h2 := ih (i + 1) t
      simp only []
      exact ⟨h2.1.trans h1.1, h2.2.1.trans h1.2.1, h2.2.2.1.trans h1.2.2.1,
        h2.2.2.2.1.trans h1.2.2.2.1, h2.2.2.2.2.1.trans h1.2.2.2.2.1,
        h2.2.2.2.2.2.1.trans h1.2.2.2.2.2.1, h2.2.2.2.2.2.2.trans h1.2.2.2.2.2.2⟩

theorem uploadStep_eq_none_iff (o : Outcome) (f : File) (s : Session) :
    uploadStep o f s = none ↔ o = Outcome.throws := by
  cases o <;> simp [uploadStep]

theorem uploadLoop_completed_iff (fetch : Nat → File → Outcome) :
    ∀ (fs : List File) (i : Nat) (s : Session),
      (uploadLoop fetch i fs s).2 = true ↔
        ∀ p ∈ fs.enumFrom i, fetch p.1 p.2 ≠ Outcome.throws := by
  intro fs
  induction fs with
  | nil => intro i s; simp [uploadLoop]
  | cons f fs ih =>
    intro i s
    unfold uploadLoop
    cases hstep : uploadStep (fetch i f) f s with
    | none =>
      have hthrow := (uploadStep_eq_none_iff _ _ _).1 hstep
      simp only [Bool.false_eq_true, false_iff, not_forall]
      exact ⟨(i, f), by simp [List.enumFrom_cons], fun h => h hthrow⟩
    | some t =>
      have hne : fetch i f ≠ Outcome.throws := by
        intro e
        rw [(uploadStep_eq_none_iff _ f s).2 e] at hstep
        cases hstep
      simp only []
      rw [ih (i + 1) t]
      constructor
      · intro h p hp
        simp only [List.enumFrom_cons, List.mem_cons] at hp
        rcases hp with rfl | hp
        · exact hne
        · exact h p hp
      · intro h p hp
        exact h p (by simp [List.enumFrom_cons, hp])

theorem uploadLoop_extractedData (fetch : Nat → File → Outcome) :
    ∀ (fs : List File) (i : Nat) (s : Session),
      (∀ p ∈ fs.enumFrom i, fetch p.1 p.2 ≠ Outcome.throws) →
      (uploadLoop fetch i fs s).1.extractedData =
        s.extractedData ++ (fs.enumFrom i).filterMap fun p => (fetch p.1 p.2).record? := by
  intro fs
  induction fs with
  | nil => intro i s _; simp [uploadLoop]
  | cons f fs ih =>
    intro i s hno
    have hnext : ∀ p ∈ fs.enumFrom (i + 1), fetch p.1 p.2 ≠ Outcome.throws := by
      intro p hp
      exact hno p (by simp [List.enumFrom_cons, hp])
    have hhead : fetch i f ≠ Outcome.throws := hno (i, f) (by simp [List.enumFrom_cons])
    unfold uploadLoop
    cases hout : fetch i f with
    | throws => exact absurd hout hhead
    | ok result =>
      simp only [uploadStep]
      rw [ih (i + 1) _ hnext]
      simp [List.enumFrom_cons, Outcome.record?, hout]
    | notOk error =>
      simp only [uploadStep]
      rw [ih (i + 1) _ hnext]
      simp [List.enumFrom_cons, Outcome.record?, hout]

theorem uploadLoop_append (fetch : Nat → File → Outcome) :
    ∀ (pre post : List File) (i : Nat) (s t : Session),
      uploadLoop fetch i pre s = (t, true) →
      uploadLoop fetch i (pre ++ post) s = uploadLoop fetch (i + pre.length) post t := by
  intro pre
  induction pre with
  | nil =>
    intro post i s t h
    simp only [uploadLoop, Prod.mk.injEq, and_true] at h
    simp [h]
  | cons f pre ih =>
    intro post i s t h
    cases hstep : uploadStep (fetch i f) f s with
    | none => simp [uploadLoop, hstep] at h
    | some u =>
      have h1 : uploadLoop fetch (i + 1) pre u = (t, true) := by
        simpa [uploadLoop, hstep] using h
      have h2 : uploadLoop fetch i (f :: pre ++ post) s
          = uploadLoop fetch (i + 1) (pre ++ post) u := by
        simp [uploadLoop, hstep]
      rw [h2, ih post (i + 1) u t h1]
      simp [Nat.add_assoc, Nat.add_comm 1]

theorem processFiles_of_completed (fetch : Nat → File → Outcome) (s : Session)
    (h : ∀ p ∈ s.currentFiles.enum, fetch p.1 p.2 ≠ Outcome.throws) :
    processFiles fetch s =
      { (uploadLoop fetch 0 s.currentFiles (passStart s)).1 with
        tableContainer :=
          updateResultsTable (uploadLoop fetch 0 s.currentFiles (passStart s)).1.extractedData
        downloadDisabled := false
        loading := false
        extractDisabled := false } := by
  have hflag := (uploadLoop_completed_iff fetch s.currentFiles 0 (passStart s)).2 h
  unfold processFiles
  cases hres : uploadLoop fetch 0 s.currentFiles (passStart s) with
  | mk t b =>
    rw [hres] at hflag
    simp only [] at hflag
    subst hflag
    rfl

theorem processFiles_of_aborted (fetch : Nat → File → Outcome) (s : Session)
    (h : ∃ p ∈ s.currentFiles.enum, fetch p.1 p.2 = Outcome.throws) :
    processFiles fetch s =
      { (uploadLoop fetch 0 s.currentFiles (passStart s)).1 with
        alerts := (uploadLoop fetch 0 s.currentFiles (passStart s)).1.alerts
          ++ ["Error processing files. Please try again."]
        loading := false
        extractDisabled := false } := by
  have hflag : (uploadLoop fetch 0 s.currentFiles (passStart s)).2 = false := by
    cases hb : (uploadLoop fetch 0 s.currentFiles (passStart s)).2 with
    | false => rfl
    | true =>
      obtain ⟨p, hp, hthrow⟩ := h
      exact absurd hthrow ((uploadLoop_completed_iff fetch _ 0 _).1 hb p hp)
  unfold processFiles
  cases hres : uploadLoop fetch 0 s.currentFiles (passStart s) with
  | mk t b =>
    rw [hres] at hflag
    simp only [] at hflag
    subst hflag
    rfl

theorem length_filterMap_record (fetch : Nat → File → Outcome) (l : List (Nat × File)) :
    (l.filterMap fun p => (fetch p.1 p.2).record?).length
      = l.countP fun p => (fetch p.1 p.2).record?.isSome := by
  induction l with
  | nil => rfl
  | cons p l ih =>
    cases h : (fetch p.1 p.2).record? with
    | none => simp [List.filterMap_cons, List.countP_cons, h, ih]
    | some r => simp [List.filterMap_cons, List.countP_cons, h, ih]

theorem eq_take_append_cons_drop {α : Type} (l : List α) (i : Nat) (a : α)
    (h : l[i]? = some a) : l = l.take i ++ a :: l.drop (i + 1) ∧ (l.take i).length = i := by
  obtain ⟨hlt, hget⟩ := List.getElem?_eq_some.1 h
  constructor
  · conv_lhs => rw [← List.take_append_drop i l]
    rw [List.drop_eq_getElem_cons hlt, hget]
  · simp [List.length_take, Nat.min_eq_left (Nat.le_of_lt hlt)]

/-! ## The processing pass and the accumulated output -/

/-- C6, as stated: after a pass without transport failure the accumulated output would consist
of the OK response bodies of this pass alone. It fails when the session already holds a record:
one accepted file on top of one earlier record leaves two records. -/
theorem processFiles_output_not_only_this_pass :
    ¬ ∀ (fetch : Nat → File → Outcome) (s : Session),
      (∀ p ∈ s.currentFiles.enum, fetch p.1 p.2 ≠ Outcome.throws) →
      (processFiles fetch s).extractedData.length
          = s.currentFiles.enum.countP (fun p => (fetch p.1 p.2).record?.isSome) ∧
        (processFiles fetch s).extractedData
          = s.currentFiles.enum.filterMap (fun p => (fetch p.1 p.2).record?) := by
  intro h
  have h1 := (h fetchAllOk
    (handleFiles sampleParseHtml [fileB] { initialSession with extractedData := [invoiceRecord] })
    (by decide)).1
  revert h1
  decide

/-- C6, amended: after a pass without transport failure, started from any session state, the
accumulated output is the output held before the pass followed by the OK response bodies in the
order of the selected files, so that it grows by the number of files whose response was OK; a
non-OK response appends nothing and the loop goes on after it. -/
theorem processFiles_appends_ok_records (fetch : Nat → File → Outcome) (s : Session)
    (h : ∀ p ∈ s.currentFiles.enum, fetch p.1 p.2 ≠ Outcome.throws) :
    (processFiles fetch s).extractedData
        = s.extractedData ++ s.currentFiles.enum.filterMap (fun p => (fetch p.1 p.2).record?) ∧
      (processFiles fetch s).extractedData.length
        = s.extractedData.length
          + s.currentFiles.enum.countP (fun p => (fetch p.1 p.2).record?.isSome) := by
  have hdata : (processFiles fetch s).extractedData
      = s.extractedData ++ s.currentFiles.enum.filterMap (fun p => (fetch p.1 p.2).record?) := by
    rw [processFiles_of_completed fetch s h]
    exact uploadLoop_extractedData fetch s.currentFiles 0 (passStart s) h
  refine ⟨hdata, ?_⟩
  rw [hdata, List.length_append, length_filterMap_record]

/-- A pass over `a.pdf` (accepted) and `b.jpg` (rejected) from a session already holding one
record: the new record follows the old one and the rejection adds nothing. -/
theorem processFiles_appends_ok_records_witness :
    (∀ p ∈ (handleFiles sampleParseHtml [fileA, fileB]
          { initialSession with extractedData := [invoiceRecord] }).currentFiles.enum,
        fetchByName p.1 p.2 ≠ Outcome.throws) ∧
      (processFiles fetchByName (handleFiles sampleParseHtml [fileA, fileB]
          { initialSession with extractedData := [invoiceRecord] })).extractedData
        = [invoiceRecord, invoiceRecord] :=
  ⟨by decide,
    ((processFiles_appends_ok_records fetchByName
      (handleFiles sampleParseHtml [fileA, fileB] { initialSession with extractedData := [invoiceRecord] })
      (by decide)).1).trans (by decide)⟩

/-! ## The download button -/

/-- C8, as stated: after every pass the download button would be enabled exactly when the
accumulated output is non-empty. A completed pass in which the only file is rejected, from an
empty session, leaves the button enabled over an empty output. -/
theorem processFiles_download_not_iff_nonempty :
    ¬ ∀ (fetch : Nat → File → Outcome) (s : Session),
      ((processFiles fetch s).downloadDisabled = false
        ↔ (processFiles fetch s).extractedData ≠ []) := by
  intro h
  have h1 := h fetchAllRejected (handleFiles sampleParseHtml [fileB] initialSession)
  revert h1
  decide

/-- C8, amended: a pass whose loop runs to completion leaves the download button enabled,
whether or not the accumulated output is empty; a pass aborted by a transport failure leaves
the download button in the state it had before the pass. -/
theorem processFiles_download_button (fetch : Nat → File → Outcome) (s : Session) :
    ((∀ p ∈ s.currentFiles.enum, fetch p.1 p.2 ≠ Outcome.throws) →
        (processFiles fetch s).downloadDisabled = false) ∧
      ((∃ p ∈ s.currentFiles.enum, fetch p.1 p.2 = Outcome.throws) →
        (processFiles fetch s).downloadDisabled = s.downloadDisabled) := by
  constructor
  · intro h
    rw [processFiles_of_completed fetch s h]
  · intro h
    rw [processFiles_of_aborted fetch s h]
    exact (uploadLoop_frame fetch s.currentFiles 0 (passStart s)).2.2.2.2.1

/-- Both cases on concrete passes: a completed pass of rejections enables the button over an
empty output, and a pass aborted after two accepted files leaves it disabled. -/
theorem processFiles_download_button_witness :
    ((∀ p ∈ (handleFiles sampleParseHtml [fileB] initialSession).currentFiles.enum,
          fetchAllRejected p.1 p.2 ≠ Outcome.throws) ∧
        (processFiles fetchAllRejected (handleFiles sampleParseHtml [fileB] initialSession)).downloadDisabled
          = false ∧
        (processFiles fetchAllRejected (handleFiles sampleParseHtml [fileB] initialSession)).extractedData = [])
      ∧
      ((∃ p ∈ (handleFiles sampleParseHtml [fileA, fileB, fileB] initialSession).currentFiles.enum,
          fetchFailsAtThird p.1 p.2 = Outcome.throws) ∧
        (processFiles fetchFailsAtThird
          (handleFiles sampleParseHtml [fileA, fileB, fileB] initialSession)).downloadDisabled = true ∧
        (processFiles fetchFailsAtThird
          (handleFiles sampleParseHtml [fileA, fileB, fileB] initialSession)).extractedData
            = [invoiceRecord, invoiceRecord]) :=
  ⟨⟨by decide,
      (processFiles_download_button fetchAllRejected
        (handleFiles sampleParseHtml [fileB] initialSession)).1 (by decide),
      by decide⟩,
    ⟨by decide,
      (processFiles_download_button fetchFailsAtThird
        (handleFiles sampleParseHtml [fileA, fileB, fileB] initialSession)).2 (by decide),
      by decide⟩⟩

/-! ## Selecting files -/

/-- C10, as stated: after `handleFiles` the extract button would be enabled exactly when the
registry is non-empty. An empty selection leaves the registry empty and the button enabled. -/
theorem handleFiles_extract_not_iff_nonempty :
    ¬ ∀ (parseHtml : String → FileItem) (files : List File) (s : Session),
      (handleFiles parseHtml files s).currentFiles = files ∧
        ((handleFiles parseHtml files s).extractDisabled = false
          ↔ (handleFiles parseHtml files s).currentFiles ≠ []) := by
  intro h
  have h1 := (h sampleParseHtml [] initialSession).2
  revert h1
  decide

/-- C10, amended: for every sequence of files passed to `handleFiles` the registry becomes
exactly that sequence in the same order; the file list is replaced by one entry per file, in the
same order, each built by the HTML parser from the markup of the file name and of the status
text Pending, so that, when the parser reads every name as plain text, every entry shows the
name of its file and Pending; and afterwards the extract button is enabled, whether or not the
registry is empty. -/
theorem handleFiles_sets_registry (parseHtml : String → FileItem) (files : List File)
    (s : Session) :
    (handleFiles parseHtml files s).currentFiles = files ∧
      (handleFiles parseHtml files s).extractDisabled = false ∧
      (handleFiles parseHtml files s).fileList
        = files.map (fun file => parseHtml (itemMarkup file.name)) ∧
      ((∀ file ∈ files, parseHtml (itemMarkup file.name) = pendingEntry file) →
        (handleFiles parseHtml files s).fileList = files.map pendingEntry ∧
          ∀ item ∈ (handleFiles parseHtml files s).fileList, item.status = "Pending") := by
  refine ⟨rfl, rfl, rfl, ?_⟩
  intro hplain
  have hlist : (handleFiles parseHtml files s).fileList = files.map pendingEntry := by
    show files.map (fun file => parseHtml (itemMarkup file.name)) = files.map pendingEntry
    exact List.map_congr_left hplain
  refine ⟨hlist, ?_⟩
  intro item hitem
  rw [hlist] at hitem
  obtain ⟨f, _, rfl⟩ := List.mem_map.1 hitem
  rfl

/-- Selecting `a.pdf` and `b.jpg`, whose names the parser reads as plain text: two entries, in
order, showing these names and Pending. -/
theorem handleFiles_sets_registry_witness :
    (∀ file ∈ [fileA, fileB], sampleParseHtml (itemMarkup file.name) = pendingEntry file) ∧
      (handleFiles sampleParseHtml [fileA, fileB] initialSession).fileList
        = [{ name := "a.pdf", status := "Pending" }, { name := "b.jpg", status := "Pending" }] :=
  ⟨by decide,
    (((handleFiles_sets_registry sampleParseHtml [fileA, fileB] initialSession).2.2.2
      (by decide)).1).trans (by decide)⟩

/-! ## Transport failure -/

theorem updateFileStatus_append_of_mem (A B : List FileItem) (n st : String)
    (h : n ∈ A.map FileItem.name) :
    updateFileStatus (A ++ B) n st = updateFileStatus A n st ++ B := by
  induction A with
  | nil => simp at h
  | cons a A ih =>
    by_cases hname : a.name = n
    · simp [updateFileStatus, hname]
    · have hrest : n ∈ A.map FileItem.name := by
        simp only [List.map_cons, List.mem_cons] at h
        rcases h with h | h
        · exact absurd h.symm hname
        · exact h
      simp [updateFileStatus, hname, ih hrest]

theorem uploadLoop_abort_at (fetch : Nat → File → Outcome) (files : List File) (s0 : Session)
    (i : Nat) (f : File)
    (hi : files[i]? = some f)
    (hthrow : fetch i f = Outcome.throws)
    (hbefore : ∀ p ∈ (files.take i).enum, fetch p.1 p.2 ≠ Outcome.throws) :
    uploadLoop fetch 0 files s0 = ((uploadLoop fetch 0 (files.take i) s0).1, false) := by
  obtain ⟨hsplit, hlen⟩ := eq_take_append_cons_drop _ i f hi
  have hflag := (uploadLoop_completed_iff fetch (files.take i) 0 s0).2 hbefore
  have hpre : uploadLoop fetch 0 (files.take i) s0
      = ((uploadLoop fetch 0 (files.take i) s0).1, true) := by
    rw [← hflag]
  have happ := uploadLoop_append fetch (files.take i) (f :: files.drop (i + 1)) 0 s0 _ hpre
  rw [← hsplit, hlen] at happ
  rw [happ]
  simp [uploadLoop, uploadStep, hthrow]

theorem uploadLoop_tail_untouched (fetch : Nat → File → Outcome) :
    ∀ (fs : List File) (i : Nat) (s : Session) (A B : List FileItem),
      s.fileList = A ++ B →
      (∀ f ∈ fs, f.name ∈ A.map FileItem.name) →
      ∃ A1, (uploadLoop fetch i fs s).1.fileList = A1 ++ B ∧
        A1.map FileItem.name = A.map FileItem.name := by
  intro fs
  induction fs with
  | nil =>
    intro i s A B hs _
    exact ⟨A, by simp [uploadLoop, hs], rfl⟩
  | cons f fs ih =>
    intro i s A B hs hA
    have hf : f.name ∈ A.map FileItem.name := hA f (List.mem_cons_self _ _)
    have hrest : ∀ st, ∀ g ∈ fs,
        g.name ∈ (updateFileStatus A f.name st).map FileItem.name := by
      intro st g hg
      rw [updateFileStatus_map_name]
      exact hA g (List.mem_cons_of_mem _ hg)
    have hupd : ∀ st, updateFileStatus s.fileList f.name st
        = updateFileStatus A f.name st ++ B := by
      intro st
      rw [hs, updateFileStatus_append_of_mem _ _ _ _ hf]
    unfold uploadLoop
    cases hout : fetch i f with
    | throws => exact ⟨A, by simp [uploadStep, hs], rfl⟩
    | ok result =>
      simp only [uploadStep]
      obtain ⟨A1, h1, h2⟩ := ih (i + 1)
        { s with
          extractedData := s.extractedData ++ [result]
          fileList := updateFileStatus s.fileList f.name "Processed" }
        (updateFileStatus A f.name "Processed") B (hupd _) (hrest _)
      exact ⟨A1, h1, h2.trans (updateFileStatus_map_name _ _ _)⟩
    | notOk error =>
      simp only [uploadStep]
      obtain ⟨A1, h1, h2⟩ := ih (i + 1)
        { s with fileList := updateFileStatus s.fileList f.name ("Error: " ++ error) }
        (updateFileStatus A f.name ("Error: " ++ error)) B (hupd _) (hrest _)
      exact ⟨A1, h1, h2.trans (updateFileStatus_map_name _ _ _)⟩

/-- C7, as stated: after a pass whose first transport failure is at index `i`, every file below
`i` would show a settled status. With the same file name selected twice, the second upload
updates the first entry again and the second entry, below the failure, still shows Pending.
With distinct names, an entry whose name span does not read the name of its file (the parser
decodes `&amp;` in it) is never found and still shows Pending. -/
theorem processFiles_entry_below_failure_still_pending :
    (¬ ∀ (fetch : Nat → File → Outcome) (s : Session) (i : Nat) (f : File),
      s.fileList = s.currentFiles.map pendingEntry →
      s.currentFiles[i]? = some f →
      fetch i f = Outcome.throws →
      (∀ p ∈ (s.currentFiles.take i).enum, fetch p.1 p.2 ≠ Outcome.throws) →
      ∀ (j : Nat) (item : FileItem), j < i →
        (processFiles fetch s).fileList[j]? = some item → item.status ≠ "Pending") ∧
    (¬ ∀ (fetch : Nat → File → Outcome) (s : Session) (i : Nat) (f : File),
      s.fileList.length = s.currentFiles.length →
      (∀ item ∈ s.fileList, item.status = "Pending") →
      (s.currentFiles.map File.name).Nodup →
      s.currentFiles[i]? = some f →
      fetch i f = Outcome.throws →
      (∀ p ∈ (s.currentFiles.take i).enum, fetch p.1 p.2 ≠ Outcome.throws) →
      ∀ (j : Nat) (item : FileItem), j < i →
        (processFiles fetch s).fileList[j]? = some item → item.status ≠ "Pending") := by
  constructor
  · intro h
    exact h fetchFailsAtThird (handleFiles sampleParseHtml [fileA, fileA, fileB] initialSession)
      2 fileB (by decide) (by decide) (by decide) (by decide) 1
      { name := "a.pdf", status := "Pending" } (by decide) (by decide) rfl
  · intro h
    exact h fetchOkThenThrows
      (handleFiles sampleParseHtml [fileAmp, fileB] initialSession)
      1 fileB (by decide) (by decide) (by decide) (by decide) (by decide) (by decide) 0
      { name := "a&b.pdf", status := "Pending" } (by decide) (by decide) rfl

theorem map_name_pendingEntry (l : List File) :
    (l.map pendingEntry).map FileItem.name = l.map File.name := by
  simp [List.map_map, Function.comp_def, pendingEntry]

/-- C7, amended: for every pass in which the upload of the file at index `i` is the first to
fail at transport level, the accumulated output after the pass is the output held before it
followed by the records of the files below `i` that returned OK; when the entries show the own
names of the selected files, in order, all with status Pending, then after the pass there is
still one entry per file, every file at index `i` or above still shows Pending, and, when the
files below `i` have pairwise distinct names, every file below `i` shows its settled status
(Processed, or Error with its message). -/
theorem processFiles_transport_failure (fetch : Nat → File → Outcome) (s : Session) (i : Nat)
    (f : File)
    (hi : s.currentFiles[i]? = some f)
    (hthrow : fetch i f = Outcome.throws)
    (hbefore : ∀ p ∈ (s.currentFiles.take i).enum, fetch p.1 p.2 ≠ Outcome.throws) :
    (processFiles fetch s).extractedData
        = s.extractedData
          ++ (s.currentFiles.take i).enum.filterMap (fun p => (fetch p.1 p.2).record?) ∧
      (s.fileList = s.currentFiles.map pendingEntry →
        (processFiles fetch s).fileList.map FileItem.name = s.currentFiles.map File.name ∧
        (processFiles fetch s).fileList.drop i = (s.currentFiles.drop i).map pendingEntry ∧
        (((s.currentFiles.take i).map File.name).Nodup →
          (processFiles fetch s).fileList.take i
              = (s.currentFiles.take i).enum.map (settledItem fetch) ∧
            ∀ p ∈ (s.currentFiles.take i).enum,
              (settledItem fetch p).status = "Processed" ∨
                ∃ error, fetch p.1 p.2 = Outcome.notOk error ∧
                  (settledItem fetch p).status = "Error: " ++ error)) := by
  obtain ⟨_, hlen⟩ := eq_take_append_cons_drop _ i f hi
  have habort := uploadLoop_abort_at fetch s.currentFiles (passStart s) i f hi hthrow hbefore
  have hfl : (processFiles fetch s).fileList
      = (uploadLoop fetch 0 (s.currentFiles.take i) (passStart s)).1.fileList := by
    unfold processFiles
    rw [habort]
  have hed : (processFiles fetch s).extractedData
      = (uploadLoop fetch 0 (s.currentFiles.take i) (passStart s)).1.extractedData := by
    unfold processFiles
    rw [habort]
  refine ⟨?_, ?_⟩
  · rw [hed]
    exact uploadLoop_extractedData fetch _ 0 (passStart s) hbefore
  · intro hshown
    have hs : (passStart s).fileList
        = (s.currentFiles.take i).map pendingEntry ++ (s.currentFiles.drop i).map pendingEntry := by
      show s.fileList = _
      rw [hshown, ← List.map_append, List.take_append_drop]
    obtain ⟨A1, h1, h2⟩ := uploadLoop_tail_untouched fetch (s.currentFiles.take i) 0
      (passStart s) _ _ hs
      (fun g hg => List.mem_map.2 ⟨pendingEntry g, List.mem_map_of_mem _ hg, rfl⟩)
    have hA1 : A1.length = i := by
      have h3 := congrArg List.length h2
      simp only [List.length_map] at h3
      rw [hlen] at h3
      exact h3
    refine ⟨?_, ?_, ?_⟩
    · rw [hfl, h1, List.map_append, h2, map_name_pendingEntry, map_name_pendingEntry,
        ← List.map_append, List.take_append_drop]
    · rw [hfl, h1]
      exact List.drop_left' hA1
    · intro hnd
      have hs2 : (passStart s).fileList
          = [] ++ (s.currentFiles.take i).map pendingEntry
            ++ (s.currentFiles.drop i).map pendingEntry := by
        rw [List.nil_append]
        exact hs
      have hpre := uploadLoop_of_no_throw fetch (s.currentFiles.take i) 0 (passStart s) []
        ((s.currentFiles.drop i).map pendingEntry) hs2 (by simp) hnd hbefore
      refine ⟨?_, ?_⟩
      · rw [hfl, hpre]
        simp only [List.nil_append]
        exact List.take_left' (by simp [List.enum, List.enumFrom_length, hlen])
      · intro p hp
        have hne := hbefore p hp
        unfold settledItem
        cases hout : fetch p.1 p.2 with
        | ok result => exact Or.inl rfl
        | notOk error => exact Or.inr ⟨error, rfl, rfl⟩
        | throws => exact absurd hout hne

/-- A pass over `a.pdf`, `b.jpg` and a third file whose upload fails at transport level: the
first two entries are settled, the third still shows Pending, one record is appended. -/
theorem processFiles_transport_failure_witness :
    (processFiles fetchByName
        (handleFiles sampleParseHtml [fileA, fileB, fileC] initialSession)).extractedData
      = [invoiceRecord] ∧
    (processFiles fetchByName
        (handleFiles sampleParseHtml [fileA, fileB, fileC] initialSession)).fileList.drop 2
      = [{ name := "c.txt", status := "Pending" }] ∧
    (processFiles fetchByName
        (handleFiles sampleParseHtml [fileA, fileB, fileC] initialSession)).fileList.take 2
      = [{ name := "a.pdf", status := "Processed" },
          { name := "b.jpg", status := "Error: unsupported" }] :=
  ⟨((processFiles_transport_failure fetchByName
        (handleFiles sampleParseHtml [fileA, fileB, fileC] initialSession) 2 fileC
        (by decide) (by decide) (by decide)).1).trans (by decide),
    ((((processFiles_transport_failure fetchByName
        (handleFiles sampleParseHtml [fileA, fileB, fileC] initialSession) 2 fileC
        (by decide) (by decide) (by decide)).2 (by decide)).2.1).trans (by decide)),
    (((((processFiles_transport_failure fetchByName
        (handleFiles sampleParseHtml [fileA, fileB, fileC] initialSession) 2 fileC
        (by decide) (by decide) (by decide)).2 (by decide)).2.2 (by decide)).1).trans
      (by decide))⟩

/-! ## Status transitions -/

theorem updateFileStatus_getElem?_change (n st : String) :
    ∀ (l : List FileItem) (j : Nat) (a b : FileItem),
      l[j]? = some a → (updateFileStatus l n st)[j]? = some b → a ≠ b →
      a.name = n ∧ b = { name := a.name, status := st } ∧
        ∀ (j1 : Nat) (a1 : FileItem), j1 < j → l[j1]? = some a1 → a1.name ≠ n := by
  intro l
  induction l with
  | nil => intro j a b ha; simp at ha
  | cons item rest ih =>
    intro j a b ha hb hne
    unfold updateFileStatus at hb
    by_cases hname : item.name = n
    · rw [if_pos hname] at hb
      cases j with
      | zero =>
        simp only [List.getElem?_cons_zero, Option.some.injEq] at ha hb
        subst ha
        exact ⟨hname, hb.symm, fun j1 a1 hlt => absurd hlt (Nat.not_lt_zero _)⟩
      | succ j =>
        simp only [List.getElem?_cons_succ] at ha hb
        rw [ha] at hb
        exact absurd (Option.some.inj hb) hne
    · rw [if_neg hname] at hb
      cases j with
      | zero =>
        simp only [List.getElem?_cons_zero, Option.some.injEq] at ha hb
        exact absurd (ha.symm.trans hb) hne
      | succ j =>
        simp only [List.getElem?_cons_succ] at ha hb
        obtain ⟨h1, h2, h3⟩ := ih j a b ha hb hne
        refine ⟨h1, h2, ?_⟩
        intro j1 a1 hlt ha1
        cases j1 with
        | zero =>
          simp only [List.getElem?_cons_zero, Option.some.injEq] at ha1
          rw [← ha1]
          exact hname
        | succ j1 =>
          simp only [List.getElem?_cons_succ] at ha1
          exact h3 j1 a1 (Nat.lt_of_succ_lt_succ hlt) ha1

theorem updateFileStatus_getElem?_first (n st : String) :
    ∀ (l : List FileItem) (j : Nat) (a : FileItem),
      l[j]? = some a → a.name = n →
      (∀ (j1 : Nat) (a1 : FileItem), j1 < j → l[j1]? = some a1 → a1.name ≠ n) →
      (updateFileStatus l n st)[j]? = some { name := a.name, status := st } := by
  intro l
  induction l with
  | nil => intro j a ha; simp at ha
  | cons item rest ih =>
    intro j a ha hname hfirst
    unfold updateFileStatus
    cases j with
    | zero =>
      simp only [List.getElem?_cons_zero, Option.some.injEq] at ha
      subst ha
      rw [if_pos hname]
      exact List.getElem?_cons_zero
    | succ j =>
      have hitem : item.name ≠ n :=
        hfirst 0 item (Nat.succ_pos _) List.getElem?_cons_zero
      rw [if_neg hitem]
      simp only [List.getElem?_cons_succ] at ha ⊢
      exact ih j a ha hname
        (fun j1 a1 hlt ha1 =>
          hfirst (j1 + 1) a1 (Nat.succ_lt_succ hlt) (List.getElem?_cons_succ.trans ha1))

theorem mem_updateFileStatus (n st : String) (x : FileItem) :
    ∀ (l : List FileItem), x ∈ updateFileStatus l n st → x ∈ l ∨ x.name = n := by
  intro l
  induction l with
  | nil => intro h; simp [updateFileStatus] at h
  | cons item rest ih =>
    intro h
    unfold updateFileStatus at h
    by_cases hname : item.name = n
    · rw [if_pos hname] at h
      rcases List.mem_cons.1 h with h | h
      · right
        rw [h]
        exact hname
      · exact Or.inl (List.mem_cons_of_mem _ h)
    · rw [if_neg hname] at h
      rcases List.mem_cons.1 h with h | h
      · exact Or.inl (by rw [h]; exact List.mem_cons_self _ _)
      · rcases ih h with h | h
        · exact Or.inl (List.mem_cons_of_mem _ h)
        · exact Or.inr h

theorem uploadStep_fileList_eq (o : Outcome) (f : File) (t t1 : Session)
    (h : uploadStep o f t = some t1) :
    t1.fileList = updateFileStatus t.fileList f.name (settledStatus o) := by
  cases o <;> simp [uploadStep] at h <;> subst h <;> rfl

theorem uploadLoop_map_name (fetch : Nat → File → Outcome) :
    ∀ (fs : List File) (i : Nat) (s : Session),
      (uploadLoop fetch i fs s).1.fileList.map FileItem.name
        = s.fileList.map FileItem.name := by
  intro fs
  induction fs with
  | nil => intro i s; rfl
  | cons f fs ih =>
    intro i s
    unfold uploadLoop
    cases hstep : uploadStep (fetch i f) f s with
    | none => rfl
    | some t =>
      simp only []
      rw [ih (i + 1) t, uploadStep_fileList_eq _ _ _ _ hstep, updateFileStatus_map_name]

theorem uploadLoop_settled_names (fetch : Nat → File → Outcome) :
    ∀ (fs : List File) (i : Nat) (s : Session) (names : List String),
      (∀ item ∈ s.fileList, item.status = "Pending" ∨ item.name ∈ names) →
      ∀ item ∈ (uploadLoop fetch i fs s).1.fileList,
        item.status = "Pending" ∨ item.name ∈ names ++ fs.map File.name := by
  intro fs
  induction fs with
  | nil =>
    intro i s names h item hitem
    simpa [uploadLoop] using h item hitem
  | cons f fs ih =>
    intro i s names h item hitem
    unfold uploadLoop at hitem
    cases hstep : uploadStep (fetch i f) f s with
    | none =>
      rw [hstep] at hitem
      rcases h item hitem with h1 | h1
      · exact Or.inl h1
      · exact Or.inr (List.mem_append_left _ h1)
    | some t =>
      rw [hstep] at hitem
      have ht : ∀ x ∈ t.fileList, x.status = "Pending" ∨ x.name ∈ names ++ [f.name] := by
        intro x hx
        rw [uploadStep_fileList_eq _ _ _ _ hstep] at hx
        rcases mem_updateFileStatus _ _ _ _ hx with hx | hx
        · rcases h x hx with h1 | h1
          · exact Or.inl h1
          · exact Or.inr (List.mem_append_left _ h1)
        · exact Or.inr (by rw [hx]; simp)
      have h2 := ih (i + 1) t (names ++ [f.name]) ht item hitem
      simpa [List.append_assoc] using h2

/-- C9, as stated: every status change made during a pass would take an entry from Pending to
Processed or Error, file names not being assumed distinct. With `a.pdf` selected twice, the
second upload changes the first entry from Processed to Error; and a second pass over an
unchanged selection changes an entry that the first pass left Processed. -/
theorem status_change_from_settled :
    (¬ ∀ (fetch : Nat → File → Outcome) (s : Session) (k : Nat) (file : File) (t t1 : Session),
      s.fileList = s.currentFiles.map pendingEntry →
      s.currentFiles[k]? = some file →
      uploadLoop fetch 0 (s.currentFiles.take k) (passStart s) = (t, true) →
      uploadStep (fetch k file) file t = some t1 →
      ∀ (j : Nat) (a b : FileItem), t.fileList[j]? = some a → t1.fileList[j]? = some b →
        a.status ≠ b.status → a.status = "Pending") ∧
    (¬ ∀ (fetch : Nat → File → Outcome) (s : Session) (k : Nat) (file : File) (t t1 : Session),
      s.fileList.map FileItem.name = s.currentFiles.map File.name →
      (s.currentFiles.map File.name).Nodup →
      s.currentFiles[k]? = some file →
      uploadLoop fetch 0 (s.currentFiles.take k) (passStart s) = (t, true) →
      uploadStep (fetch k file) file t = some t1 →
      ∀ (j : Nat) (a b : FileItem), t.fileList[j]? = some a → t1.fileList[j]? = some b →
        a.status ≠ b.status → a.status = "Pending") := by
  constructor
  · intro h
    have h1 := h fetchOkThenRejected (handleFiles sampleParseHtml [fileA, fileA] initialSession) 1 fileA
      (uploadLoop fetchOkThenRejected 0 [fileA]
        (passStart (handleFiles sampleParseHtml [fileA, fileA] initialSession))).1
      { passStart (handleFiles sampleParseHtml [fileA, fileA] initialSession) with
        extractedData := [invoiceRecord]
        fileList := [{ name := "a.pdf", status := "Error: unsupported" },
          { name := "a.pdf", status := "Pending" }] }
      (by decide) (by decide) (by decide) (by decide) 0
      { name := "a.pdf", status := "Processed" }
      { name := "a.pdf", status := "Error: unsupported" }
      (by decide) (by decide) (by decide)
    revert h1
    decide
  · intro h
    have h1 := h fetchAllRejected (processFiles fetchAllOk (handleFiles sampleParseHtml [fileA] initialSession))
      0 fileA
      (passStart (processFiles fetchAllOk (handleFiles sampleParseHtml [fileA] initialSession)))
      { passStart (processFiles fetchAllOk (handleFiles sampleParseHtml [fileA] initialSession)) with
        fileList := [{ name := "a.pdf", status := "Error: unsupported" }] }
      (by decide) (by decide) (by decide) (by decide) (by decide) 0
      { name := "a.pdf", status := "Processed" }
      { name := "a.pdf", status := "Error: unsupported" }
      (by decide) (by decide) (by decide)
    revert h1
    decide

/-- C9, amended: at every step that a pass reaches, the file list keeps its entries, each with
its name and one status, and the step for a file writes the settled status (Processed, or Error
with the message) on the first entry whose name span reads the name of the file and changes no
other entry; when all entries show Pending at the start of the pass and the files up to that
step have pairwise distinct names, every status change made by `updateFileStatus` takes an entry
from Pending to Processed or from Pending to Error, so that an entry that is already Processed
or Error is never changed again within the pass. -/
theorem status_change_from_pending (fetch : Nat → File → Outcome) (s : Session) (k : Nat)
    (file : File)
    (hk : s.currentFiles[k]? = some file)
    (hbefore : ∀ p ∈ (s.currentFiles.take k).enum, fetch p.1 p.2 ≠ Outcome.throws)
    (hfile : fetch k file ≠ Outcome.throws) :
    ∃ t t1,
      uploadLoop fetch 0 (s.currentFiles.take k) (passStart s) = (t, true) ∧
      uploadStep (fetch k file) file t = some t1 ∧
      t.fileList.map FileItem.name = s.fileList.map FileItem.name ∧
      t1.fileList.map FileItem.name = s.fileList.map FileItem.name ∧
      (settledStatus (fetch k file) = "Processed" ∨
        ∃ error, settledStatus (fetch k file) = "Error: " ++ error) ∧
      (∀ (j : Nat) (a : FileItem), t.fileList[j]? = some a → a.name = file.name →
        (∀ (j1 : Nat) (a1 : FileItem), j1 < j → t.fileList[j1]? = some a1 →
          a1.name ≠ file.name) →
        t1.fileList[j]? = some { name := a.name, status := settledStatus (fetch k file) }) ∧
      (∀ (j : Nat) (a b : FileItem), t.fileList[j]? = some a → t1.fileList[j]? = some b →
        a ≠ b →
        a.name = file.name ∧ b = { name := a.name, status := settledStatus (fetch k file) } ∧
          ∀ (j1 : Nat) (a1 : FileItem), j1 < j → t.fileList[j1]? = some a1 →
            a1.name ≠ file.name) ∧
      ((∀ item ∈ s.fileList, item.status = "Pending") →
        ((s.currentFiles.take (k + 1)).map File.name).Nodup →
        ∀ (j : Nat) (a b : FileItem), t.fileList[j]? = some a → t1.fileList[j]? = some b →
          a.status ≠ b.status →
          a.status = "Pending" ∧
            (b.status = "Processed" ∨ ∃ error, b.status = "Error: " ++ error)) := by
  have hflag := (uploadLoop_completed_iff fetch (s.currentFiles.take k) 0 (passStart s)).2 hbefore
  have hloop : uploadLoop fetch 0 (s.currentFiles.take k) (passStart s)
      = ((uploadLoop fetch 0 (s.currentFiles.take k) (passStart s)).1, true) := by
    rw [← hflag]
  have hsettled : settledStatus (fetch k file) = "Processed" ∨
      ∃ error, settledStatus (fetch k file) = "Error: " ++ error := by
    cases hout : fetch k file with
    | ok result => exact Or.inl rfl
    | notOk error => exact Or.inr ⟨error, rfl⟩
    | throws => exact absurd hout hfile
  have hsome : ∃ t1, uploadStep (fetch k file) file
      (uploadLoop fetch 0 (s.currentFiles.take k) (passStart s)).1 = some t1 := by
    cases hstep : uploadStep (fetch k file) file
      (uploadLoop fetch 0 (s.currentFiles.take k) (passStart s)).1 with
    | some t1 => exact ⟨t1, rfl⟩
    | none => exact absurd ((uploadStep_eq_none_iff _ _ _).1 hstep) hfile
  obtain ⟨t1, hstep⟩ := hsome
  have hfl := uploadStep_fileList_eq _ _ _ _ hstep
  have hnames_t := uploadLoop_map_name fetch (s.currentFiles.take k) 0 (passStart s)
  have hchange := updateFileStatus_getElem?_change file.name (settledStatus (fetch k file))
    (uploadLoop fetch 0 (s.currentFiles.take k) (passStart s)).1.fileList
  refine ⟨_, t1, hloop, hstep, hnames_t, ?_, hsettled, ?_, ?_, ?_⟩
  · rw [hfl, updateFileStatus_map_name]
    exact hnames_t
  · intro j a ha hname hfirst
    rw [hfl]
    exact updateFileStatus_getElem?_first _ _ _ j a ha hname hfirst
  · intro j a b ha hb hne
    rw [hfl] at hb
    exact hchange j a b ha hb hne
  · intro hpend hnd j a b ha hb hne
    rw [hfl] at hb
    have hab : a ≠ b := fun e => hne (by rw [e])
    obtain ⟨hname, hbeq, _⟩ := hchange j a b ha hb hab
    have hinv := uploadLoop_settled_names fetch (s.currentFiles.take k) 0 (passStart s) []
      (fun item hitem => Or.inl (hpend item hitem)) a (List.getElem?_mem ha)
    have hnotin : file.name ∉ (s.currentFiles.take k).map File.name := by
      rw [List.take_succ, hk, List.map_append] at hnd
      have hdisj := (List.nodup_append.1 hnd).2.2
      intro hmem
      exact hdisj hmem (by simp)
    refine ⟨?_, ?_⟩
    · rcases hinv with h | h
      · exact h
      · rw [List.nil_append, hname] at h
        exact absurd h hnotin
    · rw [hbeq]
      exact hsettled

/-- The second step of a pass over `a.pdf` and `b.jpg`: the state before it and the state after
it exist, and the entry of `b.jpg`, the first to read that name, goes from Pending to Error with
the message of the response. -/
theorem status_change_from_pending_witness :
    ∃ t t1,
      uploadLoop fetchByName 0 [fileA]
          (passStart (handleFiles sampleParseHtml [fileA, fileB] initialSession)) = (t, true) ∧
      uploadStep (fetchByName 1 fileB) fileB t = some t1 ∧
      t.fileList = [{ name := "a.pdf", status := "Processed" },
        { name := "b.jpg", status := "Pending" }] ∧
      t1.fileList[1]? = some { name := "b.jpg", status := "Error: unsupported" } := by
  obtain ⟨t, t1, hloop, hstep, _, _, _, hfirst, _, _⟩ :=
    status_change_from_pending fetchByName
      (handleFiles sampleParseHtml [fileA, fileB] initialSession) 1 fileB
      (by decide) (by decide) (by decide)
  have hloop2 : uploadLoop fetchByName 0 [fileA]
      (passStart (handleFiles sampleParseHtml [fileA, fileB] initialSession)) = (t, true) := hloop
  have ht : t.fileList = [{ name := "a.pdf", status := "Processed" },
      { name := "b.jpg", status := "Pending" }] := by
    have h1 := congrArg (fun r => r.1.fileList) hloop2
    simp only [] at h1
    rw [← h1]
    decide
  refine ⟨t, t1, hloop2, hstep, ht, ?_⟩
  have h2 := hfirst 1 { name := "b.jpg", status := "Pending" } (by rw [ht]; rfl) rfl
    (by
      intro j1 a1 hlt ha1
      have hj : j1 = 0 := by omega
      subst hj
      rw [ht] at ha1
      simp only [List.getElem?_cons_zero, Option.some.injEq] at ha1
      rw [← ha1]
      decide)
  exact h2

/-! ## Columns of the results table -/

theorem foldl_setAdd_first_seen (l : List String) :
    (∀ key, key ∈ l.foldl setAdd [] ↔ key ∈ l) ∧
      (l.foldl setAdd []).Pairwise (fun a b => List.indexOf a l < List.indexOf b l) := by
  induction l using List.reverseRecOn with
  | nil => simp
  | append_singleton l k ih =>
    obtain ⟨hmem, hord⟩ := ih
    have hlift : (l.foldl setAdd []).Pairwise
        (fun a b => List.indexOf a (l ++ [k]) < List.indexOf b (l ++ [k])) := by
      refine List.Pairwise.imp_of_mem ?_ hord
      intro a b ha hb hab
      rw [List.indexOf_append_of_mem ((hmem a).1 ha), List.indexOf_append_of_mem ((hmem b).1 hb)]
      exact hab
    rw [List.foldl_append, List.foldl_cons, List.foldl_nil]
    rw [show setAdd (List.foldl setAdd [] l) k
        = if k ∈ List.foldl setAdd [] l then List.foldl setAdd [] l
          else List.foldl setAdd [] l ++ [k] from rfl]
    by_cases hk : k ∈ l.foldl setAdd []
    · rw [if_pos hk]
      refine ⟨?_, hlift⟩
      intro key
      rw [hmem key, List.mem_append, List.mem_singleton]
      constructor
      · exact Or.inl
      · rintro (h | rfl)
        · exact h
        · exact (hmem _).1 hk
    · rw [if_neg hk]
      constructor
      · intro key
        rw [List.mem_append, List.mem_append, hmem key]
      · rw [List.pairwise_append]
        refine ⟨hlift, List.pairwise_singleton _ _, ?_⟩
        intro a ha b hb
        rw [List.mem_singleton] at hb
        subst hb
        have hkl : b ∉ l := fun h => hk ((hmem b).2 h)
        rw [List.indexOf_append_of_mem ((hmem a).1 ha), List.indexOf_append_of_not_mem hkl]
        exact Nat.lt_of_lt_of_le (List.indexOf_lt_length.2 ((hmem a).1 ha)) (Nat.le_add_right _ _)

theorem tableHeaders_eq_foldl (data : List Record) :
    tableHeaders data = ((data.map objectKeys).flatten).foldl setAdd [] := by
  unfold tableHeaders
  rw [List.foldl_flatten, List.foldl_map]

/-- C4: for every non-empty sequence of records, the header row rendered by `updateResultsTable`
lists the columns `tableHeaders`, which are exactly the field names occurring in some record,
without duplicates, ordered by first appearance in the scan of the records in accumulation
order and of each record's fields in its own order. -/
theorem updateResultsTable_header_union (data : List Record) (hne : data ≠ []) :
    updateResultsTable data
        = "<table class=\"results-table\">" ++ headerRowHtml (tableHeaders data)
          ++ String.join ((tableRows data).map dataRowHtml) ++ "</table>" ∧
      headerRowHtml (tableHeaders data)
        = "<tr>" ++ String.join ((tableHeaders data).map fun h => "<th>" ++ h ++ "</th>")
          ++ "</tr>" ∧
      (tableHeaders data).Nodup ∧
      (∀ key, key ∈ tableHeaders data ↔ ∃ d ∈ data, key ∈ objectKeys d) ∧
      (tableHeaders data).Pairwise (fun a b =>
        List.indexOf a (data.map objectKeys).flatten
          < List.indexOf b (data.map objectKeys).flatten) := by
  obtain ⟨hmem, hord⟩ := foldl_setAdd_first_seen (data.map objectKeys).flatten
  rw [← tableHeaders_eq_foldl] at hmem hord
  refine ⟨?_, rfl, ?_, ?_, hord⟩
  · have hlen : data.length ≠ 0 := fun h => hne (List.length_eq_zero.1 h)
    unfold updateResultsTable
    rw [if_neg hlen]
  · exact hord.imp (fun h e => by rw [e] at h; exact Nat.lt_irrefl _ h)
  · intro key
    rw [hmem key, List.mem_flatten]
    constructor
    · rintro ⟨ks, hks, hkey⟩
      obtain ⟨d, hd, rfl⟩ := List.mem_map.1 hks
      exact ⟨d, hd, hkey⟩
    · rintro ⟨d, hd, hkey⟩
      exact ⟨objectKeys d, List.mem_map_of_mem _ hd, hkey⟩

/-- Two records with the fields `a`, `b` and `c`, `a`: the header row lists `a`, `b`, `c`. -/
theorem updateResultsTable_header_union_witness :
    headerRowHtml (tableHeaders
        [[("a", Value.scalar (Scalar.str "x")), ("b", Value.scalar (Scalar.num 2))],
          [("c", Value.list [Scalar.num 1]), ("a", Value.scalar (Scalar.str "y"))]])
      = "<tr><th>a</th><th>b</th><th>c</th></tr>" :=
  ((updateResultsTable_header_union
      [[("a", Value.scalar (Scalar.str "x")), ("b", Value.scalar (Scalar.num 2))],
        [("c", Value.list [Scalar.num 1]), ("a", Value.scalar (Scalar.str "y"))]]
      (by decide)).2.1).trans (by decide)

/-! ## Cells of a record that lacks the field -/

theorem getProp_of_missing (row : Record) (header : String)
    (hown : ownProperty row header = none) (hproto : objectPrototype header = none) :
    getProp row header = JSVal.undefined := by
  simp [getProp, hown, hproto]

theorem csvCell_of_missing (row : Record) (header : String)
    (hown : ownProperty row header = none) (hproto : objectPrototype header = none) :
    csvCell row header = "\"\"" := by
  rw [csvCell, getProp_of_missing row header hown hproto]
  rfl

theorem tableCell_of_missing (data : Record) (header : String)
    (hown : ownProperty data header = none) (hproto : objectPrototype header = none) :
    tableCell data header = "" := by
  rw [tableCell, getProp_of_missing data header hown hproto]
  rfl

theorem tableCell_of_list (data : Record) (header : String) (vs : List Scalar)
    (hown : ownProperty data header = some (Value.list vs)) :
    tableCell data header = jsonStringify vs := by
  simp [tableCell, getProp, hown, orEmpty, JSVal.falsy, stringValue]

/-! ## Evaluations of the export and of the table -/

/-- C1: for the single record with field `invoice_no` of value the string 1, `downloadCSV`
builds a text whose header row is the bare column name: the header cells are not wrapped in
double quotes, unlike the data cells. -/
theorem downloadCSV_header_unquoted :
    downloadCSV [invoiceRecord] = some "invoice_no\n\"1\"\n" ∧
      downloadCSV [invoiceRecord] ≠ some "\"invoice_no\"\n\"1\"\n" := by
  decide

/-- The reader gives back a quoted cell holding a comma, quotes and a line break. -/
theorem readCsv_quoted_value :
    (downloadCSV [[("note", Value.scalar (Scalar.str "x,\"y\"\nz"))]]).map readCsv
      = some [["note"], ["x,\"y\"\nz"]] := by
  decide

/-- C2: the CSV text does not round-trip. A field of value the number 0 comes back as the empty
cell, not as the text of 0, and a field name holding a comma is written unquoted, so that the
header row comes back as two columns. -/
theorem downloadCSV_not_round_trip :
    downloadCSV [[("qty", Value.scalar (Scalar.num 0))]] = some "qty\n\"\"\n" ∧
      (downloadCSV [[("qty", Value.scalar (Scalar.num 0))]]).map readCsv
        = some [["qty"], [""]] ∧
      valueText (Value.scalar (Scalar.num 0)) = "0" ∧
      downloadCSV [[("a,b", Value.scalar (Scalar.str "1"))]] = some "a,b\n\"1\"\n" ∧
      (downloadCSV [[("a,b", Value.scalar (Scalar.str "1"))]]).map readCsv
        = some [["a", "b"], ["1"]] := by
  decide

/-- C3: with the column `constructor` taken from the first record, a later record that lacks
the field gets the text of the member inherited from `Object.prototype`, not the empty cell. -/
theorem downloadCSV_inherited_member_cell :
    ownProperty [("a", Value.scalar (Scalar.str "1"))] "constructor" = none ∧
      csvCell [("a", Value.scalar (Scalar.str "1"))] "constructor"
        = "\"function Object() \x7b [native code] \x7d\"" ∧
      downloadCSV [[("constructor", Value.scalar (Scalar.str "x"))],
          [("a", Value.scalar (Scalar.str "1"))]]
        = some "constructor\n\"x\"\n\"function Object() \x7b [native code] \x7d\"\n" := by
  decide

/-- C5: for the single record with field `qty` of value the number 0, the table cell is empty,
while the textual form of 0 is the digit 0. -/
theorem tableRows_zero_cell :
    tableRows [[("qty", Value.scalar (Scalar.num 0))]] = [[""]] ∧
      scalarToString (Scalar.num 0) = "0" ∧
      updateResultsTable [[("qty", Value.scalar (Scalar.num 0))]]
        = "<table class=\"results-table\"><tr><th>qty</th></tr><tr><td></td></tr></table>" := by
  decide

end InvoiceExtract
